import Mathlib

/-!
Verification of the blackjack probability calculator (`main.py`).

The Python module is embedded shallowly:

* card ranks become the inductive type `Rank` (the fixed 13-symbol enumeration
  `RANKS` in the source);
* the `Counter` of remaining cards becomes a total function `Rank → ℤ`
  (Python `Counter` values are arbitrary integers and the source decrements
  them without any floor, so counts can go negative);
* floating-point probabilities become exact rationals `ℚ`;
* the dealer-outcome dictionary (keys `17`–`21` or the string `"bust"`)
  becomes a total function `Outcome → ℚ`, a missing key being probability `0`
  (this matches `dealer_probs.get('bust', 0)` in the source);
* the `KeyError` raised by the `VALUES` dictionary lookup on a symbol outside
  the enumeration is modelled with `Except PyError` in a string-typed layer.

Each definition follows the corresponding Python function; the comments name
the source function.
-/

/-- The thirteen card ranks, `RANKS` in the source. -/
inductive Rank
  | r2 | r3 | r4 | r5 | r6 | r7 | r8 | r9 | r10 | rJ | rQ | rK | rA
  deriving DecidableEq, Fintype, Repr

/-- The ranks in the order of the `RANKS` list in the source. -/
def Rank.all : List Rank :=
  [Rank.r2, Rank.r3, Rank.r4, Rank.r5, Rank.r6, Rank.r7, Rank.r8, Rank.r9,
   Rank.r10, Rank.rJ, Rank.rQ, Rank.rK, Rank.rA]

/-- The `VALUES` dictionary: nominal point value of each rank, Ace as 11. -/
def VALUES : Rank → ℕ
  | Rank.r2 => 2
  | Rank.r3 => 3
  | Rank.r4 => 4
  | Rank.r5 => 5
  | Rank.r6 => 6
  | Rank.r7 => 7
  | Rank.r8 => 8
  | Rank.r9 => 9
  | Rank.r10 => 10
  | Rank.rJ => 10
  | Rank.rQ => 10
  | Rank.rK => 10
  | Rank.rA => 11

/-- Number of decks, the `NUM_DECKS = 6` constant. -/
def NUM_DECKS : ℕ := 6

/-- The initial shoe: `4 * NUM_DECKS` copies of every rank
(the initialisation loop over `remaining_global`). -/
def full_shoe : Rank → ℤ := fun _ => 4 * NUM_DECKS

/-- Sum of the nominal values of the cards: the accumulator `value` after the
first loop of `calculate_hand_value` (the Ace adds its `VALUES` entry 11
there as well). -/
def baseValue (cards : List Rank) : ℕ := (cards.map VALUES).sum

/-- Number of Aces in the hand: the accumulator `aces` after the first loop
of `calculate_hand_value`. -/
def aceCount (cards : List Rank) : ℕ := cards.count Rank.rA

/-- The `while value > 21 and aces > 0` loop of `calculate_hand_value`:
re-price one Ace from 11 to 1 (subtract 10) while the total busts and an Ace
is still counted as 11.  Structural recursion on the Ace counter. -/
def adjustAces : ℕ → ℕ → ℕ
  | v, 0 => v
  | v, a + 1 => if 21 < v then adjustAces (v - 10) a else v

/-- `calculate_hand_value` from the source: best blackjack value of a hand. -/
def calculate_hand_value (cards : List Rank) : ℕ :=
  adjustAces (baseValue cards) (aceCount cards)

/-- Decrement one rank's count by one, `rem[rank] -= 1` on a `Counter`
(no floor: the count may become negative). -/
def decr (rem : Rank → ℤ) (r : Rank) : Rank → ℤ :=
  fun x => if x = r then rem x - 1 else rem x

/-- Total number of remaining cards, `sum(remaining.values())`. -/
def totalCount (rem : Rank → ℤ) : ℤ := (Rank.all.map rem).sum

/-- `get_remaining_cards` from the source: copy the global counter, remove
the dealer's visible card and each player card.  No check is made anywhere;
counts silently go negative when a card is already depleted. -/
def get_remaining_cards (dealer_card : Rank) (player_cards : List Rank)
    (remaining_global : Rank → ℤ) : Rank → ℤ :=
  player_cards.foldl decr (decr remaining_global dealer_card)

/-- The history-recording path of the web `index` handler:
`for c in played: remaining_global[c] -= 1` — again without any check. -/
def record_played (played : List Rank) (remaining_global : Rank → ℤ) :
    Rank → ℤ :=
  played.foldl decr remaining_global

/-- `calculate_bust_probability` from the source.  Note that the source adds
the rank's nominal `VALUES` entry to `current_value` (`new_value =
current_value + VALUES[rank]`); it does not re-evaluate the enlarged hand, so
an Ace that would be re-priced is still counted with its nominal value. -/
def calculate_bust_probability (current_value : ℕ) (remaining_cards : Rank → ℤ) : ℚ :=
  if totalCount remaining_cards = 0 then 0
  else
    ((Rank.all.map (fun r =>
        if 21 < current_value + VALUES r then remaining_cards r else 0)).sum : ℤ) /
      (totalCount remaining_cards : ℚ)

/-! ### Facts about hand evaluation -/

lemma eleven_mul_aceCount_le_baseValue (cards : List Rank) :
    11 * aceCount cards ≤ baseValue cards := by
  induction cards with
  | nil => simp [aceCount, baseValue]
  | cons c cs ih =>
    cases c <;>
      simp [aceCount, baseValue, List.count_cons, VALUES] at ih ⊢ <;>
      omega

lemma adjustAces_ge (a v : ℕ) : v - 10 * a ≤ adjustAces v a := by
  induction a generalizing v with
  | zero => simp [adjustAces]
  | succ a ih =>
    simp only [adjustAces]
    by_cases h : 21 < v
    · rw [if_pos h]
      have := ih (v - 10)
      omega
    · rw [if_neg h]
      omega

/-- If the evaluated value still busts, every Ace has been re-priced:
the loop exits with `aces == 0`, so the result is the base sum minus ten per
Ace and no further re-pricing could lower it. -/
lemma adjustAces_of_bust (a v : ℕ) (h : 21 < adjustAces v a) :
    adjustAces v a = v - 10 * a := by
  induction a generalizing v with
  | zero => simp [adjustAces]
  | succ a ih =>
    simp only [adjustAces] at h ⊢
    by_cases hv : 21 < v
    · rw [if_pos hv] at h ⊢
      rw [ih (v - 10) h]
      omega
    · rw [if_neg hv] at h ⊢
      omega

/-! ### The dealer outcome distribution engine -/

/-- Lower bound of a hand's value: the base sum with every Ace re-priced to 1.
Adding any card raises it by at least one, which bounds the depth of the
dealer enumeration (`_dealer_probs_recursive` only draws while the value is
below 17). -/
def hardMin (cards : List Rank) : ℕ := baseValue cards - 10 * aceCount cards

lemma hardMin_le_value (cards : List Rank) :
    hardMin cards ≤ calculate_hand_value cards := by
  have h := adjustAces_ge (aceCount cards) (baseValue cards)
  have h11 := eleven_mul_aceCount_le_baseValue cards
  unfold hardMin calculate_hand_value
  omega

lemma hardMin_append (cards : List Rank) (r : Rank) :
    hardMin cards + 1 ≤ hardMin (cards ++ [r]) := by
  have h11 := eleven_mul_aceCount_le_baseValue cards
  cases r <;>
    simp [hardMin, baseValue, aceCount, List.count_append, List.count_cons,
      VALUES] at h11 ⊢ <;>
    omega

/-- Dealer outcome: a final value (`17`–`21`, or the value frozen when the
shoe is exhausted) or the `'bust'` sentinel string. -/
inductive Outcome
  | bust
  | val (n : ℕ)
  deriving DecidableEq, Repr

/-- `_dealer_probs_recursive` from the source, as a function from outcomes to
probabilities (a missing dictionary key is probability `0`).  Per call:
bust (`value > 21`) and stand (`value >= 17`) are terminal with probability
1; an empty shoe freezes the current value; otherwise recurse over every
rank with non-zero count, weighting each sub-distribution by
`count / total`.  Ranks with count exactly `0` are skipped (`if count == 0:
continue`); negative counts (possible, since the counters are never floored)
do take part, exactly as in the source. -/
def dealerProbsRec (hand : List Rank) (rem : Rank → ℤ) (o : Outcome) : ℚ :=
  if h21 : 21 < calculate_hand_value hand then
    (if o = Outcome.bust then 1 else 0)
  else if h17 : 17 ≤ calculate_hand_value hand then
    (if o = Outcome.val (calculate_hand_value hand) then 1 else 0)
  else if h0 : totalCount rem = 0 then
    (if o = Outcome.val (calculate_hand_value hand) then 1 else 0)
  else
    (Rank.all.map (fun r =>
      if rem r = 0 then 0
      else ((rem r : ℚ) / (totalCount rem : ℚ)) *
        dealerProbsRec (hand ++ [r]) (decr rem r) o)).sum
termination_by 17 - hardMin hand
decreasing_by
  have h1 := hardMin_le_value hand
  have h2 := hardMin_append hand r
  omega

/-- `calculate_dealer_probabilities` from the source: run the recursion with
the dealer's single visible card as the starting hand. -/
def calculate_dealer_probabilities (dealer_card : Rank) (remaining_cards : Rank → ℤ) :
    Outcome → ℚ :=
  dealerProbsRec [dealer_card] remaining_cards

/-- Every outcome key the engine can ever produce: the bust sentinel and the
integers `0`–`21` (values above 21 become `bust`, so `val` keys are at most
21). -/
def outcomeDomain : List Outcome :=
  Outcome.bust :: (List.range 22).map Outcome.val

/-- Sum of all probability values of a returned distribution. -/
def distSum (hand : List Rank) (rem : Rank → ℤ) : ℚ :=
  (outcomeDomain.map (fun o => dealerProbsRec hand rem o)).sum

/-! ### Expected values -/

/-- `calculate_ev_stand` from the source: iterate over the distribution's
entries; the bust key wins `+1`, an integer key wins/loses/pushes by
comparison with the player's value, each weighted by its probability.
Outcomes carrying probability `0` (absent dictionary keys) contribute `0`. -/
def calculate_ev_stand (player_value : ℕ) (dealer_probs : Outcome → ℚ) : ℚ :=
  (outcomeDomain.map fun o =>
    match o with
    | Outcome.bust => dealer_probs Outcome.bust * 1
    | Outcome.val d =>
        if player_value < d then dealer_probs (Outcome.val d) * (-1)
        else if d < player_value then dealer_probs (Outcome.val d) * 1
        else dealer_probs (Outcome.val d) * 0).sum

/-- `calculate_ev_hit` from the source: with an empty shoe return `-1`
("assume bust"); otherwise enumerate each rank with non-zero count, a
busting draw contributes `-1` and any other draw contributes the standing
EV of the new value, each weighted by `count / total`. -/
def calculate_ev_hit (player_cards : List Rank) (remaining : Rank → ℤ)
    (dealer_probs : Outcome → ℚ) : ℚ :=
  if totalCount remaining = 0 then -1
  else
    (Rank.all.map fun r =>
      if remaining r = 0 then 0
      else
        (if 21 < calculate_hand_value (player_cards ++ [r]) then (-1 : ℚ)
         else calculate_ev_stand (calculate_hand_value (player_cards ++ [r]))
           dealer_probs) *
          ((remaining r : ℚ) / (totalCount remaining : ℚ))).sum

/-- `calculate_ev_double` from the source: the same enumeration as
`calculate_ev_hit` with every outcome doubled (`-2` on bust or empty shoe,
twice the standing EV otherwise). -/
def calculate_ev_double (player_cards : List Rank) (remaining : Rank → ℤ)
    (dealer_probs : Outcome → ℚ) : ℚ :=
  if totalCount remaining = 0 then -2
  else
    (Rank.all.map fun r =>
      if remaining r = 0 then 0
      else
        (if 21 < calculate_hand_value (player_cards ++ [r]) then (-2 : ℚ)
         else 2 * calculate_ev_stand (calculate_hand_value (player_cards ++ [r]))
           dealer_probs) *
          ((remaining r : ℚ) / (totalCount remaining : ℚ))).sum

/-! ### The advisor -/

/-- The three action labels of the advisor
(`'Stój'` = stand, `'Dobierz'` = hit, `'Podwój'` = double). -/
inductive Advice
  | stand
  | hit
  | double
  deriving DecidableEq, Repr

/-- Python's `max(options, key=...)`: fold over the tail keeping the current
best and replacing it only on a strictly greater key, so the first of the
options tied for the maximum wins. -/
def pyMax (head : Advice × ℚ) (tail : List (Advice × ℚ)) : Advice × ℚ :=
  tail.foldl (fun best x => if best.2 < x.2 then x else best) head

/-- The structured content of the report string `get_advice` builds:
hand value, the two probabilities, the EVs (`ev_double` present exactly when
doubling is allowed) and the recommended action. -/
structure Report where
  player_value : ℕ
  bust_prob : ℚ
  dealer_bust_prob : ℚ
  ev_stand : ℚ
  ev_hit : ℚ
  ev_double : Option ℚ
  advice : Advice
  deriving DecidableEq, Repr

/-- `get_advice` from the source.  `none` models the early `"Już
przekroczyłeś!"` return for a busted player hand; otherwise derive the
remaining view, the dealer distribution and the EVs, and pick the option
with maximal EV via Python's `max` (first listed wins ties, in the fixed
order stand, hit, double).  The source computes `ev_double` lazily only when
`can_double` is set; the functions are pure, so computing it always and
using it only under `can_double` is the same function. -/
def get_advice (dealer_card : Rank) (player_cards : List Rank)
    (remaining_global : Rank → ℤ) (can_double : Bool) : Option Report :=
  let player_value := calculate_hand_value player_cards
  if 21 < player_value then none
  else
    let remaining := get_remaining_cards dealer_card player_cards remaining_global
    let dealer_probs := calculate_dealer_probabilities dealer_card remaining
    let evS := calculate_ev_stand player_value dealer_probs
    let evH := calculate_ev_hit player_cards remaining dealer_probs
    let evD := calculate_ev_double player_cards remaining dealer_probs
    let best := pyMax (Advice.stand, evS)
      ((Advice.hit, evH) :: (if can_double then [(Advice.double, evD)] else []))
    some {
      player_value := player_value
      bust_prob := calculate_bust_probability player_value remaining
      dealer_bust_prob := dealer_probs Outcome.bust
      ev_stand := evS
      ev_hit := evH
      ev_double := if can_double then some evD else none
      advice := best.1 }

/-- The hit-bust probability as claim C5 words it: the number of remaining
cards whose DRAW makes the evaluated new hand bust, over the total.  Written
from the claim for comparison with `calculate_bust_probability`; the source
adds nominal values instead of re-evaluating the hand. -/
def claimed_bust_probability (player_cards : List Rank) (rem : Rank → ℤ) : ℚ :=
  if totalCount rem = 0 then 0
  else
    ((Rank.all.map fun r =>
        if 21 < calculate_hand_value (player_cards ++ [r]) then rem r else 0).sum : ℤ) /
      (totalCount rem : ℚ)

/-- The count of remaining cards whose nominal value pushes the running
total over 21 — the quantity `calculate_bust_probability` actually divides
by the total (stated via `filter` for the amended C5). -/
def nominal_bust_count (current_value : ℕ) (rem : Rank → ℤ) : ℤ :=
  ((Rank.all.filter fun r => decide (21 < current_value + VALUES r)).map rem).sum

/-! ### The string-typed boundary (rank symbols as entered by the user) -/

/-- The `RANKS` list of the source: the thirteen valid rank symbols. -/
def RANKS : List String :=
  ["2", "3", "4", "5", "6", "7", "8", "9", "10", "J", "Q", "K", "A"]

/-- Parse a rank symbol; `none` for a symbol outside the enumeration
(where the `VALUES` dictionary lookup would raise `KeyError`). -/
def parseRank (s : String) : Option Rank :=
  match s with
  | "2" => some Rank.r2
  | "3" => some Rank.r3
  | "4" => some Rank.r4
  | "5" => some Rank.r5
  | "6" => some Rank.r6
  | "7" => some Rank.r7
  | "8" => some Rank.r8
  | "9" => some Rank.r9
  | "10" => some Rank.r10
  | "J" => some Rank.rJ
  | "Q" => some Rank.rQ
  | "K" => some Rank.rK
  | "A" => some Rank.rA
  | _ => none

/-- The uncaught Python exception a bad symbol raises: `KeyError(symbol)`
from the `VALUES[card]` lookup.  An uncaught exception crashes the caller,
unlike a returned rejection value. -/
inductive PyError
  | keyError (key : String)
  deriving DecidableEq, Repr

/-- Left-to-right conversion of a list of symbols, stopping with the
`KeyError` of the first symbol outside the enumeration — the order in which
`calculate_hand_value`'s loop hits the `VALUES` lookup. -/
def parseCards : List String → Except PyError (List Rank)
  | [] => Except.ok []
  | c :: cs =>
    match parseRank c with
    | some r => (parseCards cs).map (fun rs => r :: rs)
    | none => Except.error (PyError.keyError c)

/-- `get_advice` as callable from the boundary with raw strings, exceptions
modelled by `Except`.  The player hand is evaluated first
(`calculate_hand_value` raises on the first invalid player symbol), the
busted check follows, and the dealer's symbol is only touched afterwards
when the engine evaluates the hand `[dealer_card]` (raising `KeyError` for
an invalid dealer symbol).  No validation against `RANKS` happens here —
the CLI `main` and the web `index` perform it before calling. -/
def get_advice_boundary (dealer_card : String) (player_cards : List String)
    (remaining_global : Rank → ℤ) (can_double : Bool) :
    Except PyError (Option Report) :=
  match parseCards player_cards with
  | Except.error e => Except.error e
  | Except.ok pcs =>
    if 21 < calculate_hand_value pcs then Except.ok none
    else
      match parseRank dealer_card with
      | none => Except.error (PyError.keyError dealer_card)
      | some d => Except.ok (get_advice d pcs remaining_global can_double)

/-! ### Generic list-summation helpers -/

lemma sum_map_congr {α : Type _} (f g : α → ℚ) :
    ∀ l : List α, (∀ x ∈ l, f x = g x) → (l.map f).sum = (l.map g).sum
  | [], _ => rfl
  | a :: l, h => by
    rw [List.map_cons, List.map_cons, List.sum_cons, List.sum_cons,
      h a (by simp), sum_map_congr f g l (fun x hx => h x (by simp [hx]))]

lemma sum_map_zero {α : Type _} (f : α → ℚ) :
    ∀ l : List α, (∀ x ∈ l, f x = 0) → (l.map f).sum = 0
  | [], _ => rfl
  | a :: l, h => by
    rw [List.map_cons, List.sum_cons, h a (by simp),
      sum_map_zero f l (fun x hx => h x (by simp [hx]))]
    norm_num

lemma sum_map_le {α : Type _} (f g : α → ℚ) :
    ∀ l : List α, (∀ x ∈ l, f x ≤ g x) → (l.map f).sum ≤ (l.map g).sum
  | [], _ => le_refl _
  | a :: l, h => by
    rw [List.map_cons, List.map_cons, List.sum_cons, List.sum_cons]
    exact add_le_add (h a (by simp))
      (sum_map_le f g l (fun x hx => h x (by simp [hx])))

lemma sum_map_add {α : Type _} (f g : α → ℚ) :
    ∀ l : List α, (l.map fun x => f x + g x).sum = (l.map f).sum + (l.map g).sum
  | [] => by simp
  | a :: l => by
    rw [List.map_cons, List.map_cons, List.map_cons, List.sum_cons,
      List.sum_cons, List.sum_cons, sum_map_add f g l]
    ring

lemma mul_sum_map {α : Type _} (c : ℚ) (f : α → ℚ) :
    ∀ l : List α, (l.map fun x => c * f x).sum = c * (l.map f).sum
  | [] => by simp
  | a :: l => by
    rw [List.map_cons, List.map_cons, List.sum_cons, List.sum_cons,
      mul_sum_map c f l, mul_add]

lemma sum_map_swap {α β : Type _} (f : α → β → ℚ) (l2 : List β) :
    ∀ l1 : List α,
      (l1.map fun a => (l2.map (f a)).sum).sum =
        (l2.map fun b => (l1.map fun a => f a b).sum).sum
  | [] => by
    rw [List.map_nil, List.sum_nil]
    exact (sum_map_zero _ l2 (fun x _ => by rw [List.map_nil, List.sum_nil])).symm
  | a :: l1 => by
    rw [List.map_cons, List.sum_cons, sum_map_swap f l2 l1,
      sum_map_congr (fun b => ((a :: l1).map fun x => f x b).sum)
        (fun b => f a b + (l1.map fun x => f x b).sum) l2
        (fun b _ => by simp only [List.map_cons, List.sum_cons]),
      sum_map_add]

lemma cast_sum_map (f : Rank → ℤ) :
    ∀ l : List Rank, (((l.map f).sum : ℤ) : ℚ) = (l.map fun x => ((f x : ℤ) : ℚ)).sum
  | [] => by simp
  | a :: l => by
    rw [List.map_cons, List.sum_cons, List.map_cons, List.sum_cons,
      ← cast_sum_map f l]
    push_cast
    ring

lemma sum_ind_range (m v : ℕ) :
    ((List.range m).map fun n => if n = v then (1 : ℚ) else 0).sum =
      if v < m then 1 else 0 := by
  induction m with
  | zero => simp
  | succ m ih =>
    rw [List.range_succ, List.map_append, List.sum_append, ih]
    by_cases hvm : v = m
    · subst hvm
      simp
    · by_cases hlt : v < m
      · have h1 : v < m + 1 := by omega
        simp [hlt, h1, Ne.symm hvm]
      · have h1 : ¬v < m + 1 := by omega
        simp [hlt, h1, Ne.symm hvm]

lemma sum_point_bust :
    (outcomeDomain.map fun o => if o = Outcome.bust then (1 : ℚ) else 0).sum = 1 := by
  rw [outcomeDomain, List.map_cons, List.sum_cons, List.map_map,
    sum_map_zero _ (List.range 22) (fun n _ => by simp [Function.comp]),
    if_pos rfl]
  norm_num

lemma sum_point_val (v : ℕ) (hv : v < 22) :
    (outcomeDomain.map fun o => if o = Outcome.val v then (1 : ℚ) else 0).sum = 1 := by
  have hcomp : (fun o => if o = Outcome.val v then (1 : ℚ) else 0) ∘ Outcome.val =
      fun n => if n = v then (1 : ℚ) else 0 := by
    funext n
    simp
  rw [outcomeDomain, List.map_cons, List.sum_cons, List.map_map, hcomp,
    sum_ind_range, if_pos hv, if_neg (by simp)]
  norm_num

/-! ### Branch lemmas for the engine -/

lemma dealerProbsRec_bust (hand : List Rank) (rem : Rank → ℤ)
    (h : 21 < calculate_hand_value hand) (o : Outcome) :
    dealerProbsRec hand rem o = if o = Outcome.bust then 1 else 0 := by
  unfold dealerProbsRec
  rw [dif_pos h]

lemma dealerProbsRec_stand (hand : List Rank) (rem : Rank → ℤ)
    (h21 : ¬21 < calculate_hand_value hand) (h17 : 17 ≤ calculate_hand_value hand)
    (o : Outcome) :
    dealerProbsRec hand rem o =
      if o = Outcome.val (calculate_hand_value hand) then 1 else 0 := by
  unfold dealerProbsRec
  rw [dif_neg h21, dif_pos h17]

lemma dealerProbsRec_frozen (hand : List Rank) (rem : Rank → ℤ)
    (h21 : ¬21 < calculate_hand_value hand) (h17 : ¬17 ≤ calculate_hand_value hand)
    (h0 : totalCount rem = 0) (o : Outcome) :
    dealerProbsRec hand rem o =
      if o = Outcome.val (calculate_hand_value hand) then 1 else 0 := by
  unfold dealerProbsRec
  rw [dif_neg h21, dif_neg h17, dif_pos h0]

lemma dealerProbsRec_draw (hand : List Rank) (rem : Rank → ℤ)
    (h21 : ¬21 < calculate_hand_value hand) (h17 : ¬17 ≤ calculate_hand_value hand)
    (h0 : ¬totalCount rem = 0) (o : Outcome) :
    dealerProbsRec hand rem o =
      (Rank.all.map fun r =>
        if rem r = 0 then 0
        else ((rem r : ℚ) / (totalCount rem : ℚ)) *
          dealerProbsRec (hand ++ [r]) (decr rem r) o).sum := by
  conv_lhs => rw [dealerProbsRec]
  rw [dif_neg h21, dif_neg h17, dif_neg h0]

lemma decr_nonneg (rem : Rank → ℤ) (r : Rank) (hnn : ∀ x, 0 ≤ rem x)
    (hr : rem r ≠ 0) : ∀ x, 0 ≤ decr rem r x := by
  intro x
  unfold decr
  by_cases hx : x = r
  · subst hx
    have := hnn x
    omega
  · rw [if_neg hx]
    exact hnn x

lemma distSum_of_pointmass (hand : List Rank) (rem : Rank → ℤ) (k : Outcome)
    (hk : (outcomeDomain.map fun o => if o = k then (1 : ℚ) else 0).sum = 1)
    (h : ∀ o, dealerProbsRec hand rem o = if o = k then 1 else 0) :
    distSum hand rem = 1 := by
  unfold distSum
  rw [sum_map_congr _ _ outcomeDomain (fun o _ => h o), hk]

lemma distSum_eq_one (n : ℕ) :
    ∀ (hand : List Rank) (rem : Rank → ℤ), 17 - hardMin hand ≤ n →
      (∀ r, 0 ≤ rem r) → distSum hand rem = 1 := by
  induction n with
  | zero =>
    intro hand rem hn hnn
    have hv : 17 ≤ calculate_hand_value hand := by
      have := hardMin_le_value hand
      omega
    by_cases h21 : 21 < calculate_hand_value hand
    · exact distSum_of_pointmass hand rem Outcome.bust sum_point_bust
        (dealerProbsRec_bust hand rem h21)
    · exact distSum_of_pointmass hand rem _ (sum_point_val _ (by omega))
        (dealerProbsRec_stand hand rem h21 hv)
  | succ n ih =>
    intro hand rem hn hnn
    by_cases h21 : 21 < calculate_hand_value hand
    · exact distSum_of_pointmass hand rem Outcome.bust sum_point_bust
        (dealerProbsRec_bust hand rem h21)
    by_cases h17 : 17 ≤ calculate_hand_value hand
    · exact distSum_of_pointmass hand rem _ (sum_point_val _ (by omega))
        (dealerProbsRec_stand hand rem h21 h17)
    by_cases h0 : totalCount rem = 0
    · exact distSum_of_pointmass hand rem _
        (sum_point_val _ (by have := hardMin_le_value hand; omega))
        (dealerProbsRec_frozen hand rem h21 h17 h0)
    -- drawing case: swap the two sums and use the inductive hypothesis
    unfold distSum
    rw [sum_map_congr _ _ outcomeDomain
      (fun o _ => dealerProbsRec_draw hand rem h21 h17 h0 o)]
    rw [sum_map_swap (fun o r =>
      if rem r = 0 then 0
      else ((rem r : ℚ) / (totalCount rem : ℚ)) *
        dealerProbsRec (hand ++ [r]) (decr rem r) o) Rank.all outcomeDomain]
    have hinner : ∀ r ∈ Rank.all,
        (outcomeDomain.map fun o =>
          if rem r = 0 then 0
          else ((rem r : ℚ) / (totalCount rem : ℚ)) *
            dealerProbsRec (hand ++ [r]) (decr rem r) o).sum =
        (rem r : ℚ) / (totalCount rem : ℚ) := by
      intro r _
      by_cases hr : rem r = 0
      · rw [sum_map_zero _ outcomeDomain (fun o _ => by rw [if_pos hr]), hr]
        norm_num
      · rw [sum_map_congr _
          (fun o => ((rem r : ℚ) / (totalCount rem : ℚ)) *
            dealerProbsRec (hand ++ [r]) (decr rem r) o)
          outcomeDomain (fun o _ => by rw [if_neg hr])]
        rw [mul_sum_map]
        have hchild : distSum (hand ++ [r]) (decr rem r) = 1 := by
          apply ih
          · have l1 := hardMin_le_value hand
            have l2 := hardMin_append hand r
            omega
          · exact decr_nonneg rem r hnn hr
        rw [distSum] at hchild
        rw [hchild, mul_one]
    rw [sum_map_congr _ (fun r => (rem r : ℚ) / (totalCount rem : ℚ)) Rank.all hinner]
    have htc : ((totalCount rem : ℤ) : ℚ) ≠ 0 := Int.cast_ne_zero.mpr h0
    rw [sum_map_congr _ (fun r => ((totalCount rem : ℚ))⁻¹ * (rem r : ℚ)) Rank.all
      (fun r _ => by rw [div_eq_mul_inv, mul_comm])]
    rw [mul_sum_map, ← cast_sum_map rem Rank.all]
    rw [show (Rank.all.map rem).sum = totalCount rem from rfl]
    exact inv_mul_cancel₀ htc

/-- C1: for every dealer hand and every remaining-card multiset (counts all
non-negative) with at least one card, the probability values of the
distribution returned by the dealer outcome engine sum to exactly 1, hence
to 1.0 within any tolerance such as 1e-9 relative. -/
theorem dealer_distribution_sums_to_one (hand : List Rank) (rem : Rank → ℤ)
    (hnn : ∀ r, 0 ≤ rem r) (_hpos : 1 ≤ totalCount rem) :
    distSum hand rem = 1 :=
  distSum_eq_one (17 - hardMin hand) hand rem le_rfl hnn

/-- C1 witness: the full six-deck shoe against a dealer `10`. -/
theorem dealer_distribution_sums_to_one_witness :
    (∀ r : Rank, 0 ≤ full_shoe r) ∧ 1 ≤ totalCount full_shoe ∧
      distSum [Rank.r10] full_shoe = 1 :=
  ⟨by decide, by decide,
    dealer_distribution_sums_to_one [Rank.r10] full_shoe (by decide) (by decide)⟩

/-- C2: a dealer hand whose value is between 17 and 21 (soft 17 included) is
terminal — the engine returns that value with probability 1 and every other
outcome, bust included, with probability 0, enumerating no draw — and a hand
value above 21 yields the bust outcome with probability 1. -/
theorem dealer_stands_on_17_and_busts_above_21 (hand : List Rank)
    (rem : Rank → ℤ) (o : Outcome) :
    (17 ≤ calculate_hand_value hand → calculate_hand_value hand ≤ 21 →
      dealerProbsRec hand rem o =
        if o = Outcome.val (calculate_hand_value hand) then 1 else 0) ∧
    (21 < calculate_hand_value hand →
      dealerProbsRec hand rem o = if o = Outcome.bust then 1 else 0) := by
  constructor
  · intro h17 h21
    exact dealerProbsRec_stand hand rem (by omega) h17 o
  · intro h21
    exact dealerProbsRec_bust hand rem h21 o

/-- C2 witness: the soft-17 dealer hand `{A,6}` is terminal with probability
1 on the value 17, even with a full shoe available. -/
theorem dealer_stands_on_17_and_busts_above_21_witness :
    17 ≤ calculate_hand_value [Rank.rA, Rank.r6] ∧
    calculate_hand_value [Rank.rA, Rank.r6] ≤ 21 ∧
    dealerProbsRec [Rank.rA, Rank.r6] full_shoe (Outcome.val 17) = 1 := by
  refine ⟨by decide, by decide, ?_⟩
  have h := (dealer_stands_on_17_and_busts_above_21 [Rank.rA, Rank.r6]
    full_shoe (Outcome.val 17)).1 (by decide) (by decide)
  rw [show calculate_hand_value [Rank.rA, Rank.r6] = 17 from by decide] at h
  simpa using h

/-! ### Range of the outcome keys -/

lemma sum_map_decr (rem : Rank → ℤ) (r : Rank) :
    ∀ l : List Rank, (l.map (decr rem r)).sum = (l.map rem).sum - (l.count r : ℤ)
  | [] => by simp
  | a :: l => by
    by_cases ha : a = r
    · subst ha
      rw [List.map_cons, List.sum_cons, List.map_cons, List.sum_cons,
        sum_map_decr rem a l, List.count_cons_self]
      simp [decr]
      ring
    · rw [List.map_cons, List.sum_cons, List.map_cons, List.sum_cons,
        sum_map_decr rem r l]
      have hc : (a :: l).count r = l.count r := by
        simp [List.count_cons, ha, Ne.symm ha]
      rw [hc]
      simp only [decr, if_neg ha]
      ring

lemma totalCount_decr (rem : Rank → ℤ) (r : Rank) :
    totalCount (decr rem r) = totalCount rem - 1 := by
  have hc : Rank.all.count r = 1 := by cases r <;> rfl
  rw [totalCount, totalCount, sum_map_decr rem r Rank.all, hc]
  norm_num

lemma dealer_keys_aux (n : ℕ) :
    ∀ (hand : List Rank) (rem : Rank → ℤ), 17 - hardMin hand ≤ n →
      (∀ r, 0 ≤ rem r) → ∀ o, dealerProbsRec hand rem o ≠ 0 →
      o = Outcome.bust ∨ ∃ v, o = Outcome.val v ∧ v ≤ 21 ∧
        (17 ≤ v ∨ (hardMin hand : ℤ) + totalCount rem ≤ (v : ℤ)) := by
  induction n with
  | zero =>
    intro hand rem hn hnn o ho
    have hv : 17 ≤ calculate_hand_value hand := by
      have := hardMin_le_value hand
      omega
    by_cases h21 : 21 < calculate_hand_value hand
    · rw [dealerProbsRec_bust hand rem h21 o] at ho
      left
      by_contra hne
      rw [if_neg hne] at ho
      exact ho rfl
    · rw [dealerProbsRec_stand hand rem h21 hv o] at ho
      right
      by_cases he : o = Outcome.val (calculate_hand_value hand)
      · exact ⟨_, he, by omega, Or.inl hv⟩
      · rw [if_neg he] at ho
        exact absurd rfl ho
  | succ n ih =>
    intro hand rem hn hnn o ho
    by_cases h21 : 21 < calculate_hand_value hand
    · rw [dealerProbsRec_bust hand rem h21 o] at ho
      left
      by_contra hne
      rw [if_neg hne] at ho
      exact ho rfl
    by_cases h17 : 17 ≤ calculate_hand_value hand
    · rw [dealerProbsRec_stand hand rem h21 h17 o] at ho
      right
      by_cases he : o = Outcome.val (calculate_hand_value hand)
      · exact ⟨_, he, by omega, Or.inl h17⟩
      · rw [if_neg he] at ho
        exact absurd rfl ho
    by_cases h0 : totalCount rem = 0
    · rw [dealerProbsRec_frozen hand rem h21 h17 h0 o] at ho
      right
      by_cases he : o = Outcome.val (calculate_hand_value hand)
      · refine ⟨_, he, by omega, Or.inr ?_⟩
        rw [h0, add_zero]
        exact_mod_cast hardMin_le_value hand
      · rw [if_neg he] at ho
        exact absurd rfl ho
    rw [dealerProbsRec_draw hand rem h21 h17 h0 o] at ho
    have hex : ∃ r ∈ Rank.all,
        (if rem r = 0 then (0 : ℚ)
         else ((rem r : ℚ) / (totalCount rem : ℚ)) *
           dealerProbsRec (hand ++ [r]) (decr rem r) o) ≠ 0 := by
      by_contra hall
      push_neg at hall
      exact ho (sum_map_zero _ Rank.all hall)
    obtain ⟨r, _, hterm⟩ := hex
    have hr : rem r ≠ 0 := by
      intro h
      rw [if_pos h] at hterm
      exact hterm rfl
    rw [if_neg hr] at hterm
    have hsub : dealerProbsRec (hand ++ [r]) (decr rem r) o ≠ 0 :=
      right_ne_zero_of_mul hterm
    have hmeas : 17 - hardMin (hand ++ [r]) ≤ n := by
      have l1 := hardMin_le_value hand
      have l2 := hardMin_append hand r
      omega
    have hres := ih (hand ++ [r]) (decr rem r) hmeas
      (decr_nonneg rem r hnn hr) o hsub
    rcases hres with hb | ⟨v, hov, hv21, hvc⟩
    · exact Or.inl hb
    right
    refine ⟨v, hov, hv21, ?_⟩
    rcases hvc with h17v | hge
    · exact Or.inl h17v
    right
    have hm := hardMin_append hand r
    rw [totalCount_decr] at hge
    omega

/-- C6 amended: with a genuine (non-negative) remaining multiset, every
outcome key carrying non-zero probability is the bust sentinel or an integer
`v ≤ 21`, and `v` below 17 only occurs when the branch exhausted the shoe,
which forces the dealer hand's all-aces-low value plus the total remaining
count to be at most `v` (so it never happens when at least 16 cards remain). -/
theorem dealer_outcome_keys_range (dealer_card : Rank) (rem : Rank → ℤ)
    (hnn : ∀ r, 0 ≤ rem r) (o : Outcome)
    (ho : calculate_dealer_probabilities dealer_card rem o ≠ 0) :
    o = Outcome.bust ∨ ∃ v, o = Outcome.val v ∧ v ≤ 21 ∧
      (17 ≤ v ∨ (hardMin [dealer_card] : ℤ) + totalCount rem ≤ (v : ℤ)) :=
  dealer_keys_aux (17 - hardMin [dealer_card]) [dealer_card] rem le_rfl hnn o ho

/-- C6 counterexample: with the empty remaining multiset, a dealer `10`
yields the outcome key `10` with probability 1 — a key that is neither the
bust sentinel nor in the range 17–21, refuting the claim as stated (which
includes the empty multiset). -/
theorem dealer_outcome_key_below_17 :
    calculate_dealer_probabilities Rank.r10 (fun _ => 0) (Outcome.val 10) = 1 ∧
    Outcome.val 10 ≠ Outcome.bust ∧ ¬(17 ≤ (10 : ℕ)) := by
  refine ⟨?_, by simp, by omega⟩
  rw [calculate_dealer_probabilities,
    dealerProbsRec_frozen [Rank.r10] (fun _ => 0) (by decide) (by decide) rfl
      (Outcome.val 10),
    show calculate_hand_value [Rank.r10] = 10 from rfl]
  simp

/-- C6 witness: the amended theorem applied to the same empty-shoe input. -/
theorem dealer_outcome_keys_range_witness :
    (∀ r : Rank, 0 ≤ (fun _ => (0 : ℤ)) r) ∧
    calculate_dealer_probabilities Rank.r10 (fun _ => 0) (Outcome.val 10) ≠ 0 ∧
    (Outcome.val 10 = Outcome.bust ∨ ∃ v, Outcome.val 10 = Outcome.val v ∧
      v ≤ 21 ∧ (17 ≤ v ∨
        (hardMin [Rank.r10] : ℤ) + totalCount (fun _ => 0) ≤ (v : ℤ))) := by
  have hne : calculate_dealer_probabilities Rank.r10 (fun _ => 0)
      (Outcome.val 10) ≠ 0 := by
    rw [calculate_dealer_probabilities,
      dealerProbsRec_frozen [Rank.r10] (fun _ => 0) (by decide) (by decide) rfl
        (Outcome.val 10),
      show calculate_hand_value [Rank.r10] = 10 from rfl]
    simp
  exact ⟨by decide, hne,
    dealer_outcome_keys_range Rank.r10 (fun _ => 0) (by decide)
      (Outcome.val 10) hne⟩

/-- C3: hand evaluation sums the nominal values (Ace as 11) and re-prices
Aces from 11 to 1 while the total busts; a busted result has every Ace
re-priced, so it could not have been lowered below bust by re-pricing a
still-available Ace; `{A,6} = 17`, `{A,A,9} = 21`, and the empty hand
evaluates to `0`. -/
theorem hand_value_soft_ace_resolution :
    calculate_hand_value ([] : List Rank) = 0 ∧
    (∀ cards : List Rank, 21 < calculate_hand_value cards →
      calculate_hand_value cards = baseValue cards - 10 * aceCount cards) ∧
    calculate_hand_value [Rank.rA, Rank.r6] = 17 ∧
    calculate_hand_value [Rank.rA, Rank.rA, Rank.r9] = 21 := by
  refine ⟨by decide, ?_, by decide, by decide⟩
  intro cards h
  exact adjustAces_of_bust (aceCount cards) (baseValue cards) h

/-- C3 witness: the hand `{10, K, 5}` busts at 25 with no Ace available, and
the theorem's re-pricing clause holds for it. -/
theorem hand_value_soft_ace_resolution_witness :
    21 < calculate_hand_value [Rank.r10, Rank.rK, Rank.r5] ∧
    calculate_hand_value [Rank.r10, Rank.rK, Rank.r5] =
      baseValue [Rank.r10, Rank.rK, Rank.r5] -
        10 * aceCount [Rank.r10, Rank.rK, Rank.r5] :=
  ⟨by decide,
    hand_value_soft_ace_resolution.2.1 [Rank.r10, Rank.rK, Rank.r5] (by decide)⟩

/-- C4: the derived remaining-cards view and the history ledger both let a
count fall below zero without any error: with a shoe already empty on Aces,
excluding the dealer's Ace yields count `-1`, and recording a played Ace
yields count `-1`; both functions return normally. -/
theorem negative_counts_not_rejected :
    get_remaining_cards Rank.rA [] (fun _ => 0) Rank.rA = -1 ∧
    record_played [Rank.rA] (fun _ => 0) Rank.rA = -1 := by
  constructor <;> rfl

/-! ### Expected-value theorems -/

/-- C10: doubling is exactly twice hitting, for every player hand, every
remaining table (the empty one included: `-2 = 2 * -1`) and every dealer
outcome distribution. -/
theorem ev_double_eq_twice_ev_hit (player_cards : List Rank)
    (remaining : Rank → ℤ) (dealer_probs : Outcome → ℚ) :
    calculate_ev_double player_cards remaining dealer_probs =
      2 * calculate_ev_hit player_cards remaining dealer_probs := by
  unfold calculate_ev_double calculate_ev_hit
  by_cases h0 : totalCount remaining = 0
  · rw [if_pos h0, if_pos h0]
    norm_num
  · rw [if_neg h0, if_neg h0, ← mul_sum_map]
    apply sum_map_congr _ _ Rank.all
    intro r _
    by_cases hr : remaining r = 0
    · rw [if_pos hr, if_pos hr]
      norm_num
    · rw [if_neg hr, if_neg hr]
      by_cases hb : 21 < calculate_hand_value (player_cards ++ [r])
      · rw [if_pos hb, if_pos hb]
        ring
      · rw [if_neg hb, if_neg hb]
        ring

lemma ev_stand_term_mono (p : ℚ) (hp : 0 ≤ p) (v1 v2 d : ℕ) (h : v1 ≤ v2) :
    (if v1 < d then p * (-1) else if d < v1 then p * 1 else p * 0) ≤
    (if v2 < d then p * (-1) else if d < v2 then p * 1 else p * 0) := by
  split_ifs <;> linarith

/-- C9: for a fixed dealer outcome distribution (all probabilities
non-negative), the standing expected value is non-decreasing in the
player's hand value. -/
theorem ev_stand_monotone_in_player_value (dealer_probs : Outcome → ℚ)
    (hnn : ∀ o, 0 ≤ dealer_probs o) (v1 v2 : ℕ) (h12 : v1 ≤ v2)
    (_h21 : v2 ≤ 21) :
    calculate_ev_stand v1 dealer_probs ≤ calculate_ev_stand v2 dealer_probs := by
  unfold calculate_ev_stand
  apply sum_map_le _ _ outcomeDomain
  intro o _
  cases o with
  | bust => exact le_refl _
  | val d => exact ev_stand_term_mono _ (hnn _) v1 v2 d h12

/-- C9 witness: the all-zero distribution, player values 10 and 17. -/
theorem ev_stand_monotone_in_player_value_witness :
    (∀ o : Outcome, 0 ≤ (fun _ => (0 : ℚ)) o) ∧ (10 : ℕ) ≤ 17 ∧ (17 : ℕ) ≤ 21 ∧
    calculate_ev_stand 10 (fun _ => 0) ≤ calculate_ev_stand 17 (fun _ => 0) :=
  ⟨fun o => le_refl 0, by omega, by omega,
    ev_stand_monotone_in_player_value (fun _ => 0) (fun o => le_refl 0) 10 17
      (by omega) (by omega)⟩

/-! ### The hit-bust probability -/

lemma sum_filter_eq_sum_ite {p : Rank → Prop} [DecidablePred p] (f : Rank → ℤ) :
    ∀ l : List Rank, ((l.filter fun x => decide (p x)).map f).sum =
      (l.map fun x => if p x then f x else 0).sum
  | [] => rfl
  | a :: l => by
    rw [List.filter_cons]
    by_cases hp : p a
    · rw [if_pos (decide_eq_true hp), List.map_cons, List.sum_cons,
        List.map_cons, List.sum_cons, if_pos hp, sum_filter_eq_sum_ite f l]
    · rw [if_neg (by simp [hp]), List.map_cons, List.sum_cons, if_neg hp,
        zero_add, sum_filter_eq_sum_ite f l]

/-- C5 amended: the reported hit-bust probability equals the number of
remaining cards whose NOMINAL rank value added to the player's current hand
value exceeds 21, divided by the total remaining — the hypothetical new hand
is not re-evaluated, so a still-available Ace is counted at 11. -/
theorem bust_probability_counts_nominal_values (player_cards : List Rank)
    (rem : Rank → ℤ) (_hnb : calculate_hand_value player_cards ≤ 21)
    (hpos : 1 ≤ totalCount rem) :
    calculate_bust_probability (calculate_hand_value player_cards) rem =
      (nominal_bust_count (calculate_hand_value player_cards) rem : ℚ) /
        (totalCount rem : ℚ) := by
  rw [calculate_bust_probability, if_neg (by omega), nominal_bust_count,
    sum_filter_eq_sum_ite rem Rank.all]

/-- C5 amended witness: hard 17 (`{10,7}`) against the full shoe. -/
theorem bust_probability_counts_nominal_values_witness :
    calculate_hand_value [Rank.r10, Rank.r7] ≤ 21 ∧ 1 ≤ totalCount full_shoe ∧
    calculate_bust_probability (calculate_hand_value [Rank.r10, Rank.r7])
        full_shoe =
      (nominal_bust_count (calculate_hand_value [Rank.r10, Rank.r7])
          full_shoe : ℚ) / (totalCount full_shoe : ℚ) :=
  ⟨by decide, by decide,
    bust_probability_counts_nominal_values [Rank.r10, Rank.r7] full_shoe
      (by decide) (by decide)⟩

/-- C5 counterexample: soft 17 (`{A,6}`) with a single ten remaining.  The
source reports bust probability 1 (nominal `17 + 10 > 21`), but the drawn
hand `{A,6,10}` re-evaluates to 17, so the claim's count of
evaluated-hand-busting draws is 0. -/
theorem bust_probability_ignores_soft_ace :
    calculate_bust_probability (calculate_hand_value [Rank.rA, Rank.r6])
        (fun r => if r = Rank.r10 then 1 else 0) = 1 ∧
    claimed_bust_probability [Rank.rA, Rank.r6]
        (fun r => if r = Rank.r10 then 1 else 0) = 0 := by
  constructor
  · rw [calculate_bust_probability, if_neg (by decide)]
    simp [Rank.all, VALUES, totalCount,
      show calculate_hand_value [Rank.rA, Rank.r6] = 17 from by decide]
  · rw [claimed_bust_probability, if_neg (by decide)]
    simp [Rank.all, calculate_hand_value, baseValue, aceCount, adjustAces,
      VALUES, totalCount]

/-! ### The advisor's choice -/

/-- C7: for a non-busted player hand the advisor returns a report whose
recommended action has the greatest expected value among the available
options (stand and hit always, double only when the flag is set), and on a
tie the first-listed option wins — stand over hit over double: hit is only
recommended when strictly better than stand, double only when strictly
better than both. -/
theorem advisor_picks_first_max_ev (dealer_card : Rank)
    (player_cards : List Rank) (remaining_global : Rank → ℤ)
    (can_double : Bool) (s h d : ℚ)
    (hnb : calculate_hand_value player_cards ≤ 21)
    (hs : s = calculate_ev_stand (calculate_hand_value player_cards)
      (calculate_dealer_probabilities dealer_card
        (get_remaining_cards dealer_card player_cards remaining_global)))
    (hh : h = calculate_ev_hit player_cards
      (get_remaining_cards dealer_card player_cards remaining_global)
      (calculate_dealer_probabilities dealer_card
        (get_remaining_cards dealer_card player_cards remaining_global)))
    (hd : d = calculate_ev_double player_cards
      (get_remaining_cards dealer_card player_cards remaining_global)
      (calculate_dealer_probabilities dealer_card
        (get_remaining_cards dealer_card player_cards remaining_global))) :
    ∃ rep : Report,
      get_advice dealer_card player_cards remaining_global can_double =
        some rep ∧ rep.ev_stand = s ∧ rep.ev_hit = h ∧
      ((rep.advice = Advice.stand ∧ h ≤ s ∧ (can_double = true → d ≤ s)) ∨
       (rep.advice = Advice.hit ∧ s < h ∧ (can_double = true → d ≤ h)) ∨
       (rep.advice = Advice.double ∧ can_double = true ∧ s < d ∧ h < d)) := by
  subst hs hh hd
  rw [get_advice]
  rw [if_neg (by omega)]
  refine ⟨_, rfl, rfl, rfl, ?_⟩
  cases can_double with
  | false =>
    simp only [pyMax, List.foldl, reduceIte]
    by_cases hsh :
        calculate_ev_stand (calculate_hand_value player_cards)
          (calculate_dealer_probabilities dealer_card
            (get_remaining_cards dealer_card player_cards remaining_global)) <
        calculate_ev_hit player_cards
          (get_remaining_cards dealer_card player_cards remaining_global)
          (calculate_dealer_probabilities dealer_card
            (get_remaining_cards dealer_card player_cards remaining_global))
    · rw [if_pos hsh]
      exact Or.inr (Or.inl ⟨rfl, hsh, fun hc => nomatch hc⟩)
    · rw [if_neg hsh]
      exact Or.inl ⟨rfl, le_of_not_lt hsh, fun hc => nomatch hc⟩
  | true =>
    simp only [pyMax, List.foldl, reduceIte]
    by_cases hsh :
        calculate_ev_stand (calculate_hand_value player_cards)
          (calculate_dealer_probabilities dealer_card
            (get_remaining_cards dealer_card player_cards remaining_global)) <
        calculate_ev_hit player_cards
          (get_remaining_cards dealer_card player_cards remaining_global)
          (calculate_dealer_probabilities dealer_card
            (get_remaining_cards dealer_card player_cards remaining_global))
    · rw [if_pos hsh]
      by_cases hhd :
          calculate_ev_hit player_cards
            (get_remaining_cards dealer_card player_cards remaining_global)
            (calculate_dealer_probabilities dealer_card
              (get_remaining_cards dealer_card player_cards remaining_global)) <
          calculate_ev_double player_cards
            (get_remaining_cards dealer_card player_cards remaining_global)
            (calculate_dealer_probabilities dealer_card
              (get_remaining_cards dealer_card player_cards remaining_global))
      · rw [if_pos hhd]
        exact Or.inr (Or.inr ⟨rfl, by trivial, lt_trans hsh hhd, hhd⟩)
      · rw [if_neg hhd]
        exact Or.inr (Or.inl ⟨rfl, hsh, fun _ => le_of_not_lt hhd⟩)
    · rw [if_neg hsh]
      by_cases hsd :
          calculate_ev_stand (calculate_hand_value player_cards)
            (calculate_dealer_probabilities dealer_card
              (get_remaining_cards dealer_card player_cards remaining_global)) <
          calculate_ev_double player_cards
            (get_remaining_cards dealer_card player_cards remaining_global)
            (calculate_dealer_probabilities dealer_card
              (get_remaining_cards dealer_card player_cards remaining_global))
      · rw [if_pos hsd]
        exact Or.inr (Or.inr ⟨rfl, by trivial, hsd,
          lt_of_le_of_lt (le_of_not_lt hsh) hsd⟩)
      · rw [if_neg hsd]
        exact Or.inl ⟨rfl, le_of_not_lt hsh, fun _ => le_of_not_lt hsd⟩

/-- C7 witness: hard 17 against a dealer 5 with the full shoe, doubling not
allowed. -/
theorem advisor_picks_first_max_ev_witness :
    calculate_hand_value [Rank.r10, Rank.r7] ≤ 21 ∧
    ∃ rep : Report,
      get_advice Rank.r5 [Rank.r10, Rank.r7] full_shoe false = some rep ∧
      rep.ev_stand = calculate_ev_stand
        (calculate_hand_value [Rank.r10, Rank.r7])
        (calculate_dealer_probabilities Rank.r5
          (get_remaining_cards Rank.r5 [Rank.r10, Rank.r7] full_shoe)) ∧
      rep.ev_hit = calculate_ev_hit [Rank.r10, Rank.r7]
        (get_remaining_cards Rank.r5 [Rank.r10, Rank.r7] full_shoe)
        (calculate_dealer_probabilities Rank.r5
          (get_remaining_cards Rank.r5 [Rank.r10, Rank.r7] full_shoe)) ∧
      ((rep.advice = Advice.stand ∧
          calculate_ev_hit [Rank.r10, Rank.r7]
            (get_remaining_cards Rank.r5 [Rank.r10, Rank.r7] full_shoe)
            (calculate_dealer_probabilities Rank.r5
              (get_remaining_cards Rank.r5 [Rank.r10, Rank.r7] full_shoe)) ≤
          calculate_ev_stand (calculate_hand_value [Rank.r10, Rank.r7])
            (calculate_dealer_probabilities Rank.r5
              (get_remaining_cards Rank.r5 [Rank.r10, Rank.r7] full_shoe)) ∧
          (false = true → calculate_ev_double [Rank.r10, Rank.r7]
            (get_remaining_cards Rank.r5 [Rank.r10, Rank.r7] full_shoe)
            (calculate_dealer_probabilities Rank.r5
              (get_remaining_cards Rank.r5 [Rank.r10, Rank.r7] full_shoe)) ≤
          calculate_ev_stand (calculate_hand_value [Rank.r10, Rank.r7])
            (calculate_dealer_probabilities Rank.r5
              (get_remaining_cards Rank.r5 [Rank.r10, Rank.r7] full_shoe)))) ∨
       (rep.advice = Advice.hit ∧
          calculate_ev_stand (calculate_hand_value [Rank.r10, Rank.r7])
            (calculate_dealer_probabilities Rank.r5
              (get_remaining_cards Rank.r5 [Rank.r10, Rank.r7] full_shoe)) <
          calculate_ev_hit [Rank.r10, Rank.r7]
            (get_remaining_cards Rank.r5 [Rank.r10, Rank.r7] full_shoe)
            (calculate_dealer_probabilities Rank.r5
              (get_remaining_cards Rank.r5 [Rank.r10, Rank.r7] full_shoe)) ∧
          (false = true → calculate_ev_double [Rank.r10, Rank.r7]
            (get_remaining_cards Rank.r5 [Rank.r10, Rank.r7] full_shoe)
            (calculate_dealer_probabilities Rank.r5
              (get_remaining_cards Rank.r5 [Rank.r10, Rank.r7] full_shoe)) ≤
          calculate_ev_hit [Rank.r10, Rank.r7]
            (get_remaining_cards Rank.r5 [Rank.r10, Rank.r7] full_shoe)
            (calculate_dealer_probabilities Rank.r5
              (get_remaining_cards Rank.r5 [Rank.r10, Rank.r7] full_shoe)))) ∨
       (rep.advice = Advice.double ∧ false = true ∧
          calculate_ev_stand (calculate_hand_value [Rank.r10, Rank.r7])
            (calculate_dealer_probabilities Rank.r5
              (get_remaining_cards Rank.r5 [Rank.r10, Rank.r7] full_shoe)) <
          calculate_ev_double [Rank.r10, Rank.r7]
            (get_remaining_cards Rank.r5 [Rank.r10, Rank.r7] full_shoe)
            (calculate_dealer_probabilities Rank.r5
              (get_remaining_cards Rank.r5 [Rank.r10, Rank.r7] full_shoe)) ∧
          calculate_ev_hit [Rank.r10, Rank.r7]
            (get_remaining_cards Rank.r5 [Rank.r10, Rank.r7] full_shoe)
            (calculate_dealer_probabilities Rank.r5
              (get_remaining_cards Rank.r5 [Rank.r10, Rank.r7] full_shoe)) <
          calculate_ev_double [Rank.r10, Rank.r7]
            (get_remaining_cards Rank.r5 [Rank.r10, Rank.r7] full_shoe)
            (calculate_dealer_probabilities Rank.r5
              (get_remaining_cards Rank.r5 [Rank.r10, Rank.r7] full_shoe)))) :=
  ⟨by decide,
    advisor_picks_first_max_ev Rank.r5 [Rank.r10, Rank.r7] full_shoe false
      _ _ _ (by decide) rfl rfl rfl⟩

/-! ### The string-typed boundary -/

lemma parseRank_ok (s : String) (hs : s ∈ RANKS) : ∃ r, parseRank s = some r := by
  fin_cases hs <;> exact ⟨_, rfl⟩

lemma parseCards_ok :
    ∀ l : List String, (∀ c ∈ l, c ∈ RANKS) →
      ∃ rs, parseCards l = Except.ok rs
  | [], _ => ⟨[], rfl⟩
  | c :: cs, hmem => by
    obtain ⟨r, hr⟩ := parseRank_ok c (hmem c (by simp))
    obtain ⟨rs, hrs⟩ := parseCards_ok cs (fun x hx => hmem x (by simp [hx]))
    refine ⟨r :: rs, ?_⟩
    simp only [parseCards, hr, hrs]
    rfl

/-- C8 amended: the entry points (`main` and the web `index`) validate every
symbol against `RANKS` before invoking the core, and a request whose symbols
all lie in the enumeration never raises; the core function itself performs
no validation (see the counterexample for what it does on a bad symbol). -/
theorem validated_request_never_raises (dealer_card : String)
    (player_cards : List String) (remaining_global : Rank → ℤ)
    (can_double : Bool) (hdm : dealer_card ∈ RANKS)
    (hpm : ∀ c ∈ player_cards, c ∈ RANKS) :
    ∃ res, get_advice_boundary dealer_card player_cards remaining_global
      can_double = Except.ok res := by
  obtain ⟨rs, hrs⟩ := parseCards_ok player_cards hpm
  obtain ⟨rd, hrd⟩ := parseRank_ok dealer_card hdm
  rw [get_advice_boundary, hrs]
  dsimp only
  by_cases hb : 21 < calculate_hand_value rs
  · rw [if_pos hb]
    exact ⟨none, rfl⟩
  · rw [if_neg hb, hrd]
    exact ⟨_, rfl⟩

/-- C8 amended witness: a fully valid request. -/
theorem validated_request_never_raises_witness :
    ("10" ∈ RANKS) ∧ (∀ c ∈ ["A", "7"], c ∈ RANKS) ∧
    ∃ res, get_advice_boundary "10" ["A", "7"] full_shoe false =
      Except.ok res :=
  ⟨by decide, by decide,
    validated_request_never_raises "10" ["A", "7"] full_shoe false
      (by decide) (by decide)⟩

/-- C8 counterexample: the core advisory call itself does NOT reject an
invalid rank as a typed result — it raises `KeyError`, i.e. an uncaught
exception.  An invalid dealer symbol raises only after the player's hand
value has already been computed (partial computation), and an invalid
player symbol raises from inside `calculate_hand_value`. -/
theorem invalid_rank_raises_keyerror :
    get_advice_boundary "X" ["8", "8"] full_shoe false =
      Except.error (PyError.keyError "X") ∧
    get_advice_boundary "A" ["X"] full_shoe false =
      Except.error (PyError.keyError "X") := by
  constructor <;> rfl
